import Mathlib

set_option maxHeartbeats 1000000
set_option maxRecDepth 4000

/-! Shallow embedding of the chess tournament calendar feed generator
(src/generate_calendar.py together with src/config.py).

The pipeline scrapes event text from a web page, asks an LLM backend to
structure it as a JSON array of event records, validates the records with a
bounded retry loop, and turns the surviving records into calendar events.

External capabilities (HTTP transport, the BeautifulSoup selector engine, the
LLM endpoint, the `json`, `dateutil` and `datetime` libraries) are embedded at
their interfaces: the completion backend is a function from attempt number to a
response, the parsed HTML document is a function from selector to the matched
elements' extracted text, `json.loads` is embedded as an executable JSON parser
over the fragment the program exercises, and the date parsers are embedded on
the numeric `YYYY-M-D` form that the program's prompt mandates. -/

/-- Calendar date, modelling Python `datetime.date`. -/
structure Date where
  year : Nat
  month : Nat
  day : Nat
deriving DecidableEq

/-- Gregorian leap-year rule, as implemented by Python's `datetime`. -/
def isLeapYear (y : Nat) : Bool :=
  y % 4 == 0 && (y % 100 != 0 || y % 400 == 0)

/-- Number of days in a month, as implemented by Python's `datetime`. -/
def daysInMonth (y m : Nat) : Nat :=
  if m == 2 then (if isLeapYear y then 29 else 28)
  else if m == 4 || m == 6 || m == 9 || m == 11 then 30
  else 31

/-- Validity of a calendar date (the range check `datetime.date` performs). -/
def dateValid (d : Date) : Bool :=
  decide (1 ≤ d.month) && decide (d.month ≤ 12) &&
  decide (1 ≤ d.day) && decide (d.day ≤ daysInMonth d.year d.month)

/-- The day after a date: `d + timedelta(days=1)` on valid dates. -/
def Date.succ (d : Date) : Date :=
  if d.day < daysInMonth d.year d.month then ⟨d.year, d.month, d.day + 1⟩
  else if d.month < 12 then ⟨d.year, d.month + 1, 1⟩
  else ⟨d.year + 1, 1, 1⟩

/-- Models `d + timedelta(days=n)`. -/
def Date.addDays : Date → Nat → Date
  | d, 0 => d
  | d, n + 1 => (Date.addDays d n).succ

/-- Strict comparison of dates, modelling Python's `date.__lt__`. -/
def dateLt (a b : Date) : Bool :=
  decide (a.year < b.year ∨ (a.year = b.year ∧
    (a.month < b.month ∨ (a.month = b.month ∧ a.day < b.day))))

/-- A timezone-naive instant (date plus hour and minute), modelling the
`datetime` values the calendar builder constructs; the program never sets
seconds. -/
structure DateTime where
  date : Date
  hour : Nat
  minute : Nat
deriving DecidableEq

/-- Models `dt + timedelta(hours=h)`, carrying overflow into the date. -/
def DateTime.addHours (dt : DateTime) (h : Nat) : DateTime :=
  ⟨dt.date.addDays ((dt.hour + h) / 24), (dt.hour + h) % 24, dt.minute⟩

/-- Models `start_date.replace(hour=h, minute=m)`: Python raises `ValueError` (here
`none`) when the components are out of range. -/
def replaceTime (d : Date) (h m : Int) : Option DateTime :=
  if 0 ≤ h ∧ h < 24 ∧ 0 ≤ m ∧ m < 60 then some ⟨d, h.toNat, m.toNat⟩ else none

/-- JSON values as produced by `json.loads`. Numbers are modelled as integers;
the fractional and exponent forms never occur in this program's data. -/
inductive Json where
  | null
  | bool (b : Bool)
  | num (n : Int)
  | str (s : String)
  | arr (elems : List Json)
  | obj (fields : List (String × Json))

/-- A JSON object seen as a Python dict: a list of key/value pairs.
`json.loads` keeps the last value for a duplicated key, which the last-wins
`lookupKey` below reflects. -/
abbrev JDict := List (String × Json)

/-- Dict lookup `d[k]` / `d.get(k)`: the value of the last binding of `k`. -/
def lookupKey : JDict → String → Option Json
  | [], _ => none
  | (k2, v) :: rest, k =>
    match lookupKey rest k with
    | some v2 => some v2
    | none => if k2 = k then some v else none

/-- Replace the value of every binding of `k` in place. -/
def overwriteKey : JDict → String → Json → JDict
  | [], _, _ => []
  | (k2, v2) :: rest, k, v =>
    if k2 = k then (k, v) :: overwriteKey rest k v
    else (k2, v2) :: overwriteKey rest k v

/-- Dict assignment `d[k] = v`: overwrite an existing binding, else append. -/
def setKey (d : JDict) (k : String) (v : Json) : JDict :=
  if (lookupKey d k).isSome then overwriteKey d k v else d ++ [(k, v)]

/-- Dict deletion `del d[k]`. -/
def delKey : JDict → String → JDict
  | [], _ => []
  | (k2, v2) :: rest, k =>
    if k2 = k then delKey rest k else (k2, v2) :: delKey rest k

/-- Python truthiness of a JSON-decoded value. -/
def Json.truthy : Json → Bool
  | .null => false
  | .bool b => b
  | .num n => n != 0
  | .str s => s != ""
  | .arr elems => !elems.isEmpty
  | .obj fields => !fields.isEmpty

mutual
/-- Python `==` on JSON-decoded values. Structural except for the `bool`/`int`
coercion (`True == 1`); object comparison is modelled field-list-wise, which
agrees with Python on the key-unique dicts `json.loads` produces in one order. -/
def Json.pyEq : Json → Json → Bool
  | .null, .null => true
  | .bool a, .bool b => a == b
  | .bool a, .num n => (if a then (1 : Int) else 0) == n
  | .num n, .bool a => n == (if a then (1 : Int) else 0)
  | .num a, .num b => a == b
  | .str a, .str b => a == b
  | .arr a, .arr b => pyEqList a b
  | .obj a, .obj b => pyEqFields a b
  | _, _ => false

def pyEqList : List Json → List Json → Bool
  | [], [] => true
  | x :: xs, y :: ys => Json.pyEq x y && pyEqList xs ys
  | _, _ => false

def pyEqFields : List (String × Json) → List (String × Json) → Bool
  | [], [] => true
  | (k1, v1) :: xs, (k2, v2) :: ys => k1 == k2 && Json.pyEq v1 v2 && pyEqFields xs ys
  | _, _ => false
end

/-- Python `c in s` on a string, for a single-character needle. -/
def strContainsChar (s : String) (c : Char) : Bool :=
  s.data.any (fun a => a == c)

/-- Python `s.split(sep)` on a character list, single-character separator. -/
def splitCharsOn (sep : Char) : List Char → List (List Char)
  | [] => [[]]
  | c :: rest =>
    let r := splitCharsOn sep rest
    if c = sep then [] :: r
    else
      match r with
      | h :: tl => (c :: h) :: tl
      | [] => [[c]]

/-- Python `s.split(sep)` on a string, single-character separator. -/
def pySplit (s : String) (sep : Char) : List String :=
  (splitCharsOn sep s.data).map String.mk

/-- Python `":" in x` on a JSON-decoded value: substring test on strings,
membership on containers, `TypeError` (`none`) on the scalar types. -/
def colonMember : Json → Option Bool
  | .str s => some (strContainsChar s ':')
  | .arr elems => some (elems.any (fun j => Json.pyEq j (.str ":")))
  | .obj fields => some (fields.any (fun p => p.1 == ":"))
  | _ => none

/-- Digit list to number, most significant first. -/
def digitsToNat (cs : List Char) : Nat :=
  cs.foldl (fun a c => a * 10 + (c.toNat - 48)) 0

/-- Whitespace for Python `str.strip()` (the ASCII cases that occur here). -/
def wsChar (c : Char) : Bool := c.isWhitespace

/-- Python `str.strip()` on a character list. -/
def trimChars (cs : List Char) : List Char :=
  ((cs.dropWhile wsChar).reverse.dropWhile wsChar).reverse

/-- Python `int(s)` on a string: optional sign and decimal digits after
stripping surrounding whitespace; anything else raises (`none`). -/
def pyInt (s : String) : Option Int :=
  match trimChars s.data with
  | '-' :: rest =>
    if rest ≠ [] ∧ rest.all (·.isDigit) then some (-(digitsToNat rest : Int)) else none
  | '+' :: rest =>
    if rest ≠ [] ∧ rest.all (·.isDigit) then some ((digitsToNat rest : Int)) else none
  | cs =>
    if cs ≠ [] ∧ cs.all (·.isDigit) then some ((digitsToNat cs : Int)) else none

/-- Numeric `YYYY-M-D` date text: a 4-digit year and 1-2 digit month and day,
range-checked. This is the common executable core of the two date parsers
below. -/
def parseYMDChars (cs : List Char) : Option Date :=
  let y := cs.takeWhile (·.isDigit)
  let r1 := cs.dropWhile (·.isDigit)
  if y.length = 4 then
    match r1 with
    | '-' :: r2 =>
      let m := r2.takeWhile (·.isDigit)
      let r3 := r2.dropWhile (·.isDigit)
      if 1 ≤ m.length ∧ m.length ≤ 2 then
        match r3 with
        | '-' :: r4 =>
          let d := r4.takeWhile (·.isDigit)
          let r5 := r4.dropWhile (·.isDigit)
          if (1 ≤ d.length ∧ d.length ≤ 2) ∧ r5 = [] then
            let dt : Date := ⟨digitsToNat y, digitsToNat m, digitsToNat d⟩
            if dateValid dt then some dt else none
          else none
        | _ => none
      else none
    | _ => none
  else none

/-- Models `dateutil.parser.parse(s).date()` (external library), embedded on the
numeric ISO form `YYYY-M-D` that the program's prompt mandates; the library's
other accepted formats are outside the modelled fragment and strings such as
"invalid-date" raise (`none`), as in the library. -/
def parse_date (s : String) : Option Date := parseYMDChars s.data

/-- Models `datetime.strptime(s, "%Y-%m-%d")`, which also accepts unpadded month and
day numbers. -/
def strptime_ymd (s : String) : Option Date := parseYMDChars s.data

/-- JSON whitespace, as accepted by `json.loads`. -/
def jsonWsChar (c : Char) : Bool := c == ' ' || c == '\t' || c == '\n' || c == '\r'

/-- Hexadecimal digit value. -/
def hexVal (c : Char) : Option Nat :=
  if c.isDigit then some (c.toNat - 48)
  else if 'a' ≤ c ∧ c ≤ 'f' then some (c.toNat - 87)
  else if 'A' ≤ c ∧ c ≤ 'F' then some (c.toNat - 55)
  else none

/-- JSON string escapes. -/
def escapeChar : Char → Option Char
  | '"' => some '"'
  | '\\' => some '\\'
  | '/' => some '/'
  | 'b' => some '\x08'
  | 'f' => some '\x0c'
  | 'n' => some '\n'
  | 'r' => some '\r'
  | 't' => some '\t'
  | _ => none

/-- Body of a JSON string after the opening quote; returns the decoded
characters and the remaining input. Control characters are rejected, as in
`json.loads` strict mode. -/
def parseJsonString : Nat → List Char → Option (List Char × List Char)
  | 0, _ => none
  | _ + 1, [] => none
  | _ + 1, '"' :: rest => some ([], rest)
  | fuel + 1, '\\' :: 'u' :: a :: b :: c :: d :: rest =>
    (match hexVal a, hexVal b, hexVal c, hexVal d with
     | some ha, some hb, some hc, some hd =>
       (match parseJsonString fuel rest with
        | some (s, r) =>
          some (Char.ofNat (((ha * 16 + hb) * 16 + hc) * 16 + hd) :: s, r)
        | none => none)
     | _, _, _, _ => none)
  | fuel + 1, '\\' :: e :: rest =>
    (match escapeChar e with
     | some c =>
       (match parseJsonString fuel rest with
        | some (s, r) => some (c :: s, r)
        | none => none)
     | none => none)
  | fuel + 1, c :: rest =>
    if c.toNat < 32 then none
    else
      (match parseJsonString fuel rest with
       | some (s, r) => some (c :: s, r)
       | none => none)

/-- JSON number literal (integral part of the grammar; fractional and exponent
forms never occur in this program's data and are rejected). -/
def parseJsonNumber (cs : List Char) : Option (Int × List Char) :=
  let signed := match cs with
                | '-' :: rest => (true, rest)
                | _ => (false, cs)
  let digits := signed.2.takeWhile (·.isDigit)
  let rest := signed.2.dropWhile (·.isDigit)
  if digits.isEmpty then none
  else if digits.length > 1 ∧ digits.head? = some '0' then none
  else
    match rest with
    | '.' :: _ => none
    | 'e' :: _ => none
    | 'E' :: _ => none
    | _ => some (if signed.1 then -(digitsToNat digits : Int) else (digitsToNat digits : Int), rest)

mutual
/-- One JSON value and the remaining input, skipping leading whitespace. -/
def parseJsonValue : Nat → List Char → Option (Json × List Char)
  | 0, _ => none
  | fuel + 1, cs =>
    match cs.dropWhile jsonWsChar with
    | 'n' :: 'u' :: 'l' :: 'l' :: rest => some (.null, rest)
    | 't' :: 'r' :: 'u' :: 'e' :: rest => some (.bool true, rest)
    | 'f' :: 'a' :: 'l' :: 's' :: 'e' :: rest => some (.bool false, rest)
    | '"' :: rest =>
      (match parseJsonString fuel rest with
       | some (s, r) => some (.str (String.mk s), r)
       | none => none)
    | '[' :: rest =>
      (match rest.dropWhile jsonWsChar with
       | ']' :: r2 => some (.arr [], r2)
       | _ =>
         (match parseJsonElems fuel rest with
          | some (xs, r2) => some (.arr xs, r2)
          | none => none))
    | '\x7b' :: rest =>
      (match rest.dropWhile jsonWsChar with
       | '\x7d' :: r2 => some (.obj [], r2)
       | _ =>
         (match parseJsonMembers fuel rest with
          | some (fs, r2) => some (.obj fs, r2)
          | none => none))
    | c :: rest =>
      if c == '-' || c.isDigit then
        (match parseJsonNumber (c :: rest) with
         | some (n, r) => some (.num n, r)
         | none => none)
      else none
    | [] => none

/-- Comma-separated JSON array elements up to the closing bracket. -/
def parseJsonElems : Nat → List Char → Option (List Json × List Char)
  | 0, _ => none
  | fuel + 1, cs =>
    match parseJsonValue fuel cs with
    | some (v, r) =>
      (match r.dropWhile jsonWsChar with
       | ',' :: r2 =>
         (match parseJsonElems fuel r2 with
          | some (xs, r3) => some (v :: xs, r3)
          | none => none)
       | ']' :: r2 => some ([v], r2)
       | _ => none)
    | none => none

/-- Comma-separated JSON object members up to the closing brace. -/
def parseJsonMembers : Nat → List Char → Option (List (String × Json) × List Char)
  | 0, _ => none
  | fuel + 1, cs =>
    match cs.dropWhile jsonWsChar with
    | '"' :: rest =>
      (match parseJsonString fuel rest with
       | some (k, r) =>
         (match r.dropWhile jsonWsChar with
          | ':' :: r2 =>
            (match parseJsonValue fuel r2 with
             | some (v, r3) =>
               (match r3.dropWhile jsonWsChar with
                | ',' :: r4 =>
                  (match parseJsonMembers fuel r4 with
                   | some (fs, r5) => some ((String.mk k, v) :: fs, r5)
                   | none => none)
                | '\x7d' :: r4 => some ([(String.mk k, v)], r4)
                | _ => none)
             | none => none)
          | _ => none)
       | none => none)
    | _ => none
end

/-- Models `json.loads(s)`: parse one JSON value and require only whitespace after
it; `none` models `json.JSONDecodeError`. The fuel bounds the recursion depth
and exceeds the maximal call-chain length for the given input. -/
def jsonLoads (s : String) : Option Json :=
  match parseJsonValue (2 * s.data.length + 8) s.data with
  | some (j, rest) => if (rest.dropWhile jsonWsChar).isEmpty then some j else none
  | none => none

/-- Configured single-day event duration (config.py, `DEFAULT_EVENT_DURATION_HOURS`). -/
def DEFAULT_EVENT_DURATION_HOURS : Nat := 3

/-- Configured selector priority order (config.py, `EVENT_SELECTORS`). -/
def EVENT_SELECTORS : List String :=
  [".event-card", ".event", ".tournament", "[class*=\"event\"]", "[class*=\"tournament\"]"]

/-- Line 107-108 of generate_calendar.py: drop a leading "```json" marker. -/
def cleanStep1 (cs : List Char) : List Char :=
  if List.isPrefixOf ("```json".data) cs then cs.drop 7 else cs

/-- Line 109-110 of generate_calendar.py: drop a leading "```" marker. -/
def cleanStep2 (cs : List Char) : List Char :=
  if List.isPrefixOf ("```".data) cs then cs.drop 3 else cs

/-- Line 111-112 of generate_calendar.py: drop a trailing "```" marker. -/
def cleanStep3 (cs : List Char) : List Char :=
  if List.isSuffixOf ("```".data) cs then cs.take (cs.length - 3) else cs

/-- Markdown code-fence cleanup of the completion text, embedding lines
105-113 of generate_calendar.py: strip, drop a leading "```json" marker, then
a leading "```" marker, then a trailing "```" marker, then strip again. -/
def cleanChars (cs0 : List Char) : List Char :=
  trimChars (cleanStep3 (cleanStep2 (cleanStep1 (trimChars cs0))))

/-- String-level wrapper of `cleanChars`. -/
def cleanContent (s : String) : String := String.mk (cleanChars s.data)

/-- Date validation of a record field inside the structuring loop:
`parse_date(event[k]).date()` raises (`none`) on non-string values and
unparsable text. -/
def jsonDateField (v : Option Json) : Option Date :=
  match v with
  | some (.str s) => parse_date s
  | _ => none

/-- The multi-day range check of lines 132-142 of generate_calendar.py: when
`end_date` is present, both dates must parse and the end must not precede the
start, else the element is discarded (`none`); the surviving element is kept
unchanged. -/
def validateDates (d : JDict) : Option JDict :=
  if (lookupKey d "end_date").isSome then
    match jsonDateField (lookupKey d "start_date"),
          jsonDateField (lookupKey d "end_date") with
    | some s, some e => if dateLt e s then none else some d
    | _, _ => none
  else some d

/-- Per-element validation of lines 123-144 of generate_calendar.py: the
element must be an object containing "title" and either "start_date" or the
legacy "date" (which is renamed to "start_date"), and must pass the multi-day
range check. -/
def validateEvent (j : Json) : Option JDict :=
  match j with
  | .obj d =>
    if (lookupKey d "title").isSome then
      if (lookupKey d "start_date").isSome || (lookupKey d "date").isSome then
        validateDates
          (if (lookupKey d "date").isSome && !(lookupKey d "start_date").isSome
           then delKey (setKey d "start_date" ((lookupKey d "date").getD .null)) "date"
           else d)
      else none
    else none
  | _ => none

/-- Failure categories of one structuring attempt, the exceptions caught at
line 152 of generate_calendar.py. -/
inductive LLMFail where
  | network
  | badJson
  | notArray
  | noValidEvents
deriving DecidableEq

/-- One response of the completion backend: a transport-level failure
(`requests.RequestException` or a malformed response envelope, both caught by
the same handler) or the completion text. -/
inductive LLMResponse where
  | transportError
  | content (text : String)

/-- One structuring attempt on one backend response, embedding lines 91-150 of
generate_calendar.py: clean the text, parse it as JSON, require an array, keep
the elements that validate, and require at least one survivor. -/
def processAttempt : LLMResponse → Except LLMFail (List JDict)
  | .transportError => .error .network
  | .content text =>
    match jsonLoads (cleanContent text) with
    | none => .error .badJson
    | some (.arr elems) =>
      if (elems.filterMap validateEvent).isEmpty then .error .noValidEvents
      else .ok (elems.filterMap validateEvent)
    | some _ => .error .notArray

/-- Outcome of `call_llm_with_retry`: success with the validated records, a
`RuntimeError` wrapping the last attempt's failure, or (for `max_retries < 1`,
when the loop body never runs) Python's implicit `None`. -/
inductive LLMOutcome where
  | success (events : List JDict)
  | failure (lastCause : LLMFail)
  | noAttempt

/-- The retry loop of lines 87-159 of generate_calendar.py, from a given
attempt number with the given fuel (remaining loop iterations). Besides the
outcome it returns the number of backend invocations and the list of sleep
durations performed between attempts. -/
def retryFrom (responses : Nat → LLMResponse) (maxRetries delay attempt : Nat) :
    Nat → LLMOutcome × Nat × List Nat
  | 0 => (.noAttempt, 0, [])
  | fuel + 1 =>
    if attempt > maxRetries then (.noAttempt, 0, [])
    else
      match processAttempt (responses attempt) with
      | .ok evs => (.success evs, 1, [])
      | .error e =>
        if attempt < maxRetries then
          let r := retryFrom responses maxRetries delay (attempt + 1) fuel
          (r.1, r.2.1 + 1, delay :: r.2.2)
        else (.failure e, 1, [])

/-- Models `call_llm_with_retry(raw_text, max_retries, delay)`: run the attempts
`1..max_retries`. The raw text only fixes the prompt, which the backend
function abstracts over, so it is not a parameter here. -/
def call_llm_with_retry (responses : Nat → LLMResponse) (maxRetries delay : Nat) :
    LLMOutcome × Nat × List Nat :=
  retryFrom responses maxRetries delay 1 maxRetries

/-- The time span of one generated calendar event: either an all-day span with
exclusive end, or a timed start and end instant. -/
inductive EventSpan where
  | allDay (first endExclusive : Date)
  | timed (start finish : DateTime)

/-- One generated calendar event: `name` is the raw "title" value, `location`
and `description` are attached verbatim when present. -/
structure CalEvent where
  name : Json
  span : EventSpan
  location : Option Json
  description : Option Json

/-- Models `parse_date(x)` with the `strptime` fallback of lines 178-189 of
generate_calendar.py; non-string values make both parsers raise. -/
def parseDateField (j : Json) : Option Date :=
  match j with
  | .str s =>
    (match parse_date s with
     | some d => some d
     | none => strptime_ymd s)
  | _ => none

/-- The single-day time resolution of lines 199-208 of generate_calendar.py:
a truthy time value containing ":" is split and its first two fields are
converted with `int` and installed with `replace` (any failure raises, `none`);
otherwise the time defaults to noon. -/
def resolveEventTime (startDate : Date) (timeVal : Json) : Option DateTime :=
  if timeVal.truthy then
    match colonMember timeVal with
    | none => none
    | some true =>
      (match timeVal with
       | .str s =>
         (match pySplit s ':' with
          | p0 :: p1 :: _ =>
            (match pyInt p0, pyInt p1 with
             | some h, some m => replaceTime startDate h m
             | _, _ => none)
          | _ => none)
       | _ => none)
    | some false => some ⟨startDate, 12, 0⟩
  else some ⟨startDate, 12, 0⟩

/-- Per-record calendar construction, embedding lines 168-226 of
generate_calendar.py; `none` models the per-record exception handler that logs
and skips the record. A present, truthy `end_date` that differs (raw-value
comparison, `!=`) from `start_date` yields an all-day span with exclusive end
one day after the parsed end date; otherwise a timed span of the configured
duration starting at the resolved time. -/
def processRecord (ev : JDict) : Option CalEvent :=
  match lookupKey ev "title" with
  | none => none
  | some title =>
    match lookupKey ev "start_date" with
    | none => none
    | some sdVal =>
      match parseDateField sdVal with
      | none => none
      | some startDate =>
        let endVal := lookupKey ev "end_date"
        let multiDay := match endVal with
                        | some e => e.truthy && !(Json.pyEq e sdVal)
                        | none => false
        if multiDay then
          match endVal with
          | some e =>
            (match parseDateField e with
             | none => none
             | some endDate =>
               some ⟨title, .allDay startDate (Date.succ endDate),
                     lookupKey ev "location", lookupKey ev "description"⟩)
          | none => none
        else
          match resolveEventTime startDate ((lookupKey ev "time").getD (.str "12:00")) with
          | none => none
          | some dt =>
            some ⟨title, .timed dt (dt.addHours DEFAULT_EVENT_DURATION_HOURS),
                  lookupKey ev "location", lookupKey ev "description"⟩

/-- Models `generate_ics_calendar(events_data)`: process the records independently in
order, skipping the ones whose processing raises; the returned list is the
calendar content that is then serialized to the output file (the file write is
an I/O effect outside the embedding). -/
def generate_ics_calendar (eventsData : List JDict) : List CalEvent :=
  eventsData.filterMap processRecord

/-- The parsed HTML document at the extractor's interface: `select` gives the
extracted text (`get_text(separator="\n", strip=True)`) of each element
matching a selector, in document order; `fallbackText` is the main-content (or
whole-document) fallback text of lines 58-64 of generate_calendar.py. -/
structure Soup where
  select : String → List String
  fallbackText : String

/-- The first-match-wins selector loop of lines 51-56 of generate_calendar.py. -/
def findEventCards (soup : Soup) : List String → List String
  | [] => []
  | sel :: rest =>
    let cards := soup.select sel
    if cards.isEmpty then findEventCards soup rest else cards

/-- Models `scrape_events` on an already fetched and parsed page, embedding lines
49-75 of generate_calendar.py: take the first selector with matches, keep each
matched element's nonempty text, and join with a blank line; fall back to the
page text when nothing matches. -/
def scrape_events (soup : Soup) : String :=
  let eventCards := findEventCards soup EVENT_SELECTORS
  if eventCards.isEmpty then soup.fallbackText
  else String.intercalate "\n\n" (eventCards.filter (fun text => text != ""))


/-- A backend that always answers with unparsable text. -/
def badBackend : Nat → LLMResponse := fun _ => .content "oops"

/-- A concrete page on which ".event-card" matches two elements and every
lower-priority selector also matches. -/
def soupExample : Soup :=
  ⟨fun sel => if sel = ".event-card" then ["Austin Open", "Spring Tournament"] else ["Noise"],
   "fallback text"⟩

/-! Concrete records used by the spec's scenarios. -/

/-- The spec's multi-day round-trip scenario record. -/
def springOpenRecord : JDict :=
  [("title", .str "Spring Open"), ("start_date", .str "2024-03-20"),
   ("end_date", .str "2024-03-22")]

/-- The spec's timed single-day scenario record. -/
def fridayBlitzRecord : JDict :=
  [("title", .str "Friday Blitz"), ("start_date", .str "2024-02-15"),
   ("time", .str "18:30")]

/-- First record of the spec's partial-failure scenario. -/
def validRecord : JDict :=
  [("title", .str "Valid Event"), ("start_date", .str "2024-02-15"),
   ("time", .str "10:00")]

/-- Second record of the spec's partial-failure scenario: unparsable date. -/
def invalidDateRecord : JDict :=
  [("title", .str "Invalid Event"), ("start_date", .str "invalid-date")]

/-- A record whose time contains a colon but an out-of-range hour. -/
def badTimeRecord : JDict :=
  [("title", .str "Late Night"), ("start_date", .str "2024-02-15"),
   ("time", .str "25:00")]

/-- The spec's legacy-alias scenario record. -/
def legacyDateRecord : JDict := [("title", .str "X"), ("date", .str "2024-01-01")]

/-- The normalized counterpart of the legacy-alias scenario record. -/
def modernDateRecord : JDict := [("title", .str "X"), ("start_date", .str "2024-01-01")]

/-- Distinct date strings that resolve to the same calendar day. -/
def sameDayRecord : JDict :=
  [("title", .str "T"), ("start_date", .str "2024-03-20"),
   ("end_date", .str "2024-3-20")]

/-- Identical start and end date strings. -/
def equalStringsRecord : JDict :=
  [("title", .str "T"), ("start_date", .str "2024-03-20"),
   ("end_date", .str "2024-03-20")]

/-- A completion response whose single element carries an empty title. -/
def emptyTitleContent : String :=
  "[\x7b\"title\": \"\", \"start_date\": \"2024-01-01\"\x7d]"

/-- A valid JSON array response text preceded by the bare word "json". -/
def jsonPrefixedContent : String :=
  "json [\x7b\"title\": \"A\", \"start_date\": \"2024-01-01\"\x7d]"

/-! Dictionary lemmas used by the validation proofs. -/

theorem lookupKey_append (d1 d2 : JDict) (k : String) :
    lookupKey (d1 ++ d2) k =
      match lookupKey d2 k with
      | some v => some v
      | none => lookupKey d1 k := by
  induction d1 with
  | nil => simp [lookupKey]; cases lookupKey d2 k <;> simp
  | cons p rest ih =>
    obtain ⟨k2, v2⟩ := p
    cases h2 : lookupKey d2 k <;> cases hr : lookupKey rest k <;>
      simp [List.cons_append, lookupKey, ih, h2, hr]

theorem lookupKey_overwrite_self (d : JDict) (k : String) (v : Json) :
    lookupKey (overwriteKey d k v) k =
      if (lookupKey d k).isSome then some v else none := by
  induction d with
  | nil => simp [overwriteKey, lookupKey]
  | cons p rest ih =>
    obtain ⟨k2, v2⟩ := p
    by_cases hk : k2 = k
    · subst hk
      cases h : lookupKey rest k2 <;>
        simp [overwriteKey, lookupKey, ih, h]
    · cases h : lookupKey rest k <;>
        simp [overwriteKey, lookupKey, ih, h, hk]

theorem lookupKey_overwrite_ne (d : JDict) (k k2 : String) (v : Json) (h : k2 ≠ k) :
    lookupKey (overwriteKey d k v) k2 = lookupKey d k2 := by
  induction d with
  | nil => simp [overwriteKey]
  | cons p rest ih =>
    obtain ⟨k3, v3⟩ := p
    by_cases hk : k3 = k
    · subst hk
      have h2 : k3 ≠ k2 := fun hh => h hh.symm
      simp [overwriteKey, lookupKey, ih, h2]
    · simp [overwriteKey, lookupKey, ih, hk]

theorem lookupKey_set_self (d : JDict) (k : String) (v : Json) :
    lookupKey (setKey d k v) k = some v := by
  unfold setKey
  split
  case isTrue h => simp [lookupKey_overwrite_self, h]
  case isFalse h => simp [lookupKey_append, lookupKey]

theorem lookupKey_set_ne (d : JDict) (k k2 : String) (v : Json) (h : k2 ≠ k) :
    lookupKey (setKey d k v) k2 = lookupKey d k2 := by
  unfold setKey
  split
  · exact lookupKey_overwrite_ne d k k2 v h
  · simp only [lookupKey_append, lookupKey]
    have : ¬ k = k2 := fun hh => h hh.symm
    simp [this]

theorem lookupKey_del_ne (d : JDict) (k k2 : String) (h : k2 ≠ k) :
    lookupKey (delKey d k) k2 = lookupKey d k2 := by
  induction d with
  | nil => simp [delKey, lookupKey]
  | cons p rest ih =>
    obtain ⟨k3, v3⟩ := p
    by_cases hk : k3 = k
    · subst hk
      have h2 : k3 ≠ k2 := fun hh => h hh.symm
      cases hl : lookupKey rest k2 <;> simp [delKey, lookupKey, ih, hl, h2]
    · simp [delKey, lookupKey, ih, hk]

theorem lookupKey_del_self (d : JDict) (k : String) :
    lookupKey (delKey d k) k = none := by
  induction d with
  | nil => simp [delKey, lookupKey]
  | cons p rest ih =>
    obtain ⟨k3, v3⟩ := p
    by_cases hk : k3 = k
    · subst hk; simp [delKey, ih]
    · simp [delKey, lookupKey, ih, hk]

theorem validateDates_some {d x : JDict} (h : validateDates d = some x) : x = d := by
  unfold validateDates at h
  split at h
  · split at h
    · split at h
      · exact absurd h (by simp)
      · exact (Option.some.inj h).symm
    · exact absurd h (by simp)
  · exact (Option.some.inj h).symm

theorem validateEvent_title {j : Json} {d : JDict} (h : validateEvent j = some d) :
    (lookupKey d "title").isSome = true := by
  cases j with
  | obj d0 =>
    simp only [validateEvent] at h
    split at h
    case isTrue htitle =>
      split at h
      case isTrue hdates =>
        have hd := validateDates_some h
        subst hd
        split
        case isTrue hnorm =>
          rw [lookupKey_del_ne _ _ _ (by decide), lookupKey_set_ne _ _ _ _ (by decide)]
          exact htitle
        case isFalse hnorm => exact htitle
      case isFalse hdates => exact absurd h (by simp)
    case isFalse htitle => exact absurd h (by simp)
  | null => exact absurd h (by simp [validateEvent])
  | bool b => exact absurd h (by simp [validateEvent])
  | num n => exact absurd h (by simp [validateEvent])
  | str s => exact absurd h (by simp [validateEvent])
  | arr elems => exact absurd h (by simp [validateEvent])

/-! Retry-loop lemmas. -/

theorem retryFrom_exhaust (responses : Nat → LLMResponse) (maxRetries delay : Nat)
    (eN : LLMFail) (hN : processAttempt (responses maxRetries) = .error eN) :
    ∀ fuel attempt, 1 ≤ attempt → attempt ≤ maxRetries → attempt + fuel = maxRetries + 1 →
    (∀ k, attempt ≤ k → k ≤ maxRetries → ∃ e, processAttempt (responses k) = .error e) →
    retryFrom responses maxRetries delay attempt fuel =
      (.failure eN, fuel, List.replicate (fuel - 1) delay) := by
  intro fuel
  induction fuel with
  | zero => intro attempt h1 h2 h3 _; omega
  | succ f ih =>
    intro attempt h1 h2 h3 hall
    obtain ⟨e, he⟩ := hall attempt le_rfl h2
    by_cases hlt : attempt < maxRetries
    · have hrec := ih (attempt + 1) (by omega) (by omega) (by omega)
        (fun k hk1 hk2 => hall k (by omega) hk2)
      simp only [retryFrom, if_neg (by omega : ¬ attempt > maxRetries), he, if_pos hlt, hrec]
      have hrep : List.replicate (f + 1 - 1) delay = delay :: List.replicate (f - 1) delay := by
        rw [show f + 1 - 1 = (f - 1) + 1 from by omega, List.replicate_succ]
      simp only [Prod.mk.injEq]
      exact ⟨trivial, trivial, hrep.symm⟩
    · have heq : attempt = maxRetries := by omega
      have hf : f = 0 := by omega
      subst heq hf
      rw [hN] at he
      simp only [retryFrom, if_neg (by omega : ¬ attempt > attempt), hN,
        if_neg (by omega : ¬ attempt < attempt)]
      simp

theorem retryFrom_success (responses : Nat → LLMResponse) (maxRetries delay k : Nat)
    (evs : List JDict) (hk : processAttempt (responses k) = .ok evs) :
    ∀ fuel attempt, attempt ≤ k → k ≤ maxRetries → attempt + fuel = maxRetries + 1 →
    (∀ j, attempt ≤ j → j < k → ∃ e, processAttempt (responses j) = .error e) →
    retryFrom responses maxRetries delay attempt fuel =
      (.success evs, k + 1 - attempt, List.replicate (k - attempt) delay) := by
  intro fuel
  induction fuel with
  | zero => intro attempt h1 h2 h3 _; omega
  | succ f ih =>
    intro attempt h1 h2 h3 hbefore
    by_cases hak : attempt = k
    · subst hak
      simp only [retryFrom, if_neg (by omega : ¬ attempt > maxRetries), hk]
      simp [show attempt + 1 - attempt = 1 by omega, show attempt - attempt = 0 by omega]
    · have hlt : attempt < k := by omega
      obtain ⟨e, he⟩ := hbefore attempt le_rfl hlt
      have hrec := ih (attempt + 1) (by omega) h2 (by omega)
        (fun j hj1 hj2 => hbefore j (by omega) hj2)
      simp only [retryFrom, if_neg (by omega : ¬ attempt > maxRetries), he,
        if_pos (by omega : attempt < maxRetries), hrec]
      have hrep : List.replicate (k - attempt) delay
          = delay :: List.replicate (k - (attempt + 1)) delay := by
        rw [show k - attempt = (k - (attempt + 1)) + 1 from by omega, List.replicate_succ]
      simp only [Prod.mk.injEq]
      exact ⟨trivial, by omega, hrep.symm⟩

/-- C1: for a backend whose first `n` responses are all malformed (any failure
category), every attempt fails, each non-final failure is followed by exactly
one retry after the fixed configured delay, and after the `n` configured
attempts the operation fails with an error wrapping the last underlying cause,
the backend having been invoked exactly `n` times; dually, a first success at
attempt `k` returns immediately with exactly `k` invocations and `k - 1`
sleeps. -/
theorem c1_retry_policy (responses : Nat → LLMResponse) (n delay : Nat) (hn : 1 ≤ n) :
    ((∀ k, 1 ≤ k → k ≤ n → ∃ e, processAttempt (responses k) = .error e) →
      ∃ e, processAttempt (responses n) = .error e ∧
        call_llm_with_retry responses n delay =
          (.failure e, n, List.replicate (n - 1) delay)) ∧
    (∀ k evs, 1 ≤ k → k ≤ n →
      (∀ j, 1 ≤ j → j < k → ∃ e, processAttempt (responses j) = .error e) →
      processAttempt (responses k) = .ok evs →
      call_llm_with_retry responses n delay =
        (.success evs, k, List.replicate (k - 1) delay)) := by
  constructor
  · intro hall
    obtain ⟨e, he⟩ := hall n hn le_rfl
    refine ⟨e, he, ?_⟩
    unfold call_llm_with_retry
    exact retryFrom_exhaust responses n delay e he n 1 le_rfl hn (by omega) hall
  · intro k evs hk1 hk2 hbefore hok
    unfold call_llm_with_retry
    have := retryFrom_success responses n delay k evs hok n 1 hk1 hk2 (by omega) hbefore
    simpa [show k + 1 - 1 = k by omega] using this

theorem c1_retry_policy_witness :
    ∃ e, processAttempt (badBackend 3) = .error e ∧
      call_llm_with_retry badBackend 3 2 = (.failure e, 3, List.replicate 2 2) :=
  (c1_retry_policy badBackend 3 2 (by decide)).1
    (fun k _ _ => ⟨.badJson, rfl⟩)

/-- C3: when the page contains at least one element matching the first
configured selector ".event-card", extraction returns exactly the matched
elements' trimmed text, in document order, with empty texts omitted, joined by
a blank-line separator; the matches of lower-priority selectors do not appear
in the result, which depends only on the first selector's matches. -/
theorem c3_selector_priority (soup : Soup) (h : soup.select ".event-card" ≠ []) :
    scrape_events soup =
      String.intercalate "\n\n" ((soup.select ".event-card").filter (fun text => text != "")) := by
  have hne : (soup.select ".event-card").isEmpty = false := by
    cases hs : soup.select ".event-card"
    · exact absurd hs h
    · rfl
  have hcards : findEventCards soup EVENT_SELECTORS = soup.select ".event-card" := by
    simp [findEventCards, EVENT_SELECTORS, hne]
  simp [scrape_events, hcards, hne]

theorem c3_selector_priority_witness :
    scrape_events soupExample =
      String.intercalate "\n\n"
        ((soupExample.select ".event-card").filter (fun text => text != "")) :=
  c3_selector_priority soupExample (by simp [soupExample])

/-! Calendar-builder lemmas: the two branches of per-record processing. -/

theorem processRecord_allday (d : JDict) (t : Json) (ss es : String) (sd ed : Date)
    (ht : lookupKey d "title" = some t)
    (hs : lookupKey d "start_date" = some (.str ss))
    (he : lookupKey d "end_date" = some (.str es))
    (hne : es ≠ "") (hdiff : es ≠ ss)
    (hps : parse_date ss = some sd) (hpe : parse_date es = some ed) :
    processRecord d = some ⟨t, .allDay sd (Date.succ ed),
      lookupKey d "location", lookupKey d "description"⟩ := by
  have h1 : (Json.str es).truthy = true := by simp [Json.truthy, hne]
  have h2 : Json.pyEq (.str es) (.str ss) = false := by simp [Json.pyEq, hdiff]
  simp only [processRecord, ht, hs, he, parseDateField, hps, hpe]
  simp [h1, h2]

theorem contains_ne_empty {tstr : String} (hcolon : strContainsChar tstr ':' = true) :
    tstr ≠ "" := by
  intro hEq
  rw [hEq] at hcolon
  exact absurd hcolon (by decide)

theorem resolveEventTime_parsed (sd : Date) (tstr p0 p1 : String) (ps : List String)
    (hv mv : Int)
    (hcolon : strContainsChar tstr ':' = true)
    (hsplit : pySplit tstr ':' = p0 :: p1 :: ps)
    (hph : pyInt p0 = some hv) (hpm : pyInt p1 = some mv)
    (hh0 : 0 ≤ hv) (hh : hv < 24) (hm0 : 0 ≤ mv) (hm : mv < 60) :
    resolveEventTime sd (.str tstr) = some ⟨sd, hv.toNat, mv.toNat⟩ := by
  have htne := contains_ne_empty hcolon
  have htr : (Json.str tstr).truthy = true := by simp [Json.truthy, htne]
  simp only [resolveEventTime, htr, if_true, colonMember, hcolon, hsplit, hph, hpm,
    replaceTime]
  rw [if_pos ⟨hh0, hh, hm0, hm⟩]

theorem resolveEventTime_noon (sd : Date) (tstr : String)
    (hcolon : strContainsChar tstr ':' = false) :
    resolveEventTime sd (.str tstr) = some ⟨sd, 12, 0⟩ := by
  by_cases htne : tstr = ""
  · subst htne
    rfl
  · have htr : (Json.str tstr).truthy = true := by simp [Json.truthy, htne]
    simp only [resolveEventTime, htr, if_true, colonMember, hcolon]

theorem processRecord_timed (d : JDict) (t : Json) (ss : String) (sd : Date)
    (tv : Json) (dt : DateTime)
    (ht : lookupKey d "title" = some t)
    (hs : lookupKey d "start_date" = some (.str ss))
    (hend : lookupKey d "end_date" = none ∨ lookupKey d "end_date" = some (.str ss))
    (htime : (lookupKey d "time").getD (.str "12:00") = tv)
    (hres : resolveEventTime sd tv = some dt)
    (hps : parse_date ss = some sd) :
    processRecord d = some ⟨t, .timed dt (dt.addHours DEFAULT_EVENT_DURATION_HOURS),
      lookupKey d "location", lookupKey d "description"⟩ := by
  cases hend with
  | inl hnone =>
    simp only [processRecord, ht, hs, parseDateField, hps, hnone, htime, hres]
    simp
  | inr hsame =>
    have h2 : Json.pyEq (.str ss) (.str ss) = true := by simp [Json.pyEq]
    simp only [processRecord, ht, hs, parseDateField, hps, hsame, htime, hres]
    simp [h2]


/-- C2: a record that validated with a present end date differing from the
start date yields exactly one all-day event beginning on the parsed start date
with stored exclusive end one day after the parsed end date; in particular the
Spring Open record yields one all-day event from 2024-03-20 with internal
exclusive end 2024-03-23. -/
theorem c2_multiday_event :
    (∀ (d : JDict) (t : Json) (ss es : String) (sd ed : Date),
      lookupKey d "title" = some t →
      lookupKey d "start_date" = some (.str ss) →
      lookupKey d "end_date" = some (.str es) →
      es ≠ "" → es ≠ ss →
      parse_date ss = some sd → parse_date es = some ed →
      processRecord d = some ⟨t, .allDay sd (Date.succ ed),
        lookupKey d "location", lookupKey d "description"⟩) ∧
    generate_ics_calendar [springOpenRecord] =
      [⟨.str "Spring Open", .allDay ⟨2024, 3, 20⟩ ⟨2024, 3, 23⟩, none, none⟩] := by
  constructor
  · intro d t ss es sd ed ht hs he hne hdiff hps hpe
    exact processRecord_allday d t ss es sd ed ht hs he hne hdiff hps hpe
  · rfl

theorem c2_multiday_event_witness :
    processRecord springOpenRecord =
      some ⟨.str "Spring Open", .allDay ⟨2024, 3, 20⟩ (Date.succ ⟨2024, 3, 22⟩),
        lookupKey springOpenRecord "location", lookupKey springOpenRecord "description"⟩ :=
  c2_multiday_event.1 springOpenRecord (.str "Spring Open") "2024-03-20" "2024-03-22"
    ⟨2024, 3, 20⟩ ⟨2024, 3, 22⟩ rfl rfl rfl (by decide) (by decide) rfl rfl

/-- C5: a single-day record (end date absent or equal to the start date)
whose time value is a string containing a colon-separated in-range hour and
minute yields one timed event starting at the start date combined with that
time and ending exactly the configured default duration of 3 hours later; in
particular the Friday Blitz record yields one timed event 18:30-21:30. -/
theorem c5_timed_single_day :
    (∀ (d : JDict) (t : Json) (ss tstr p0 p1 : String) (ps : List String)
       (sd : Date) (hv mv : Int),
      lookupKey d "title" = some t →
      lookupKey d "start_date" = some (.str ss) →
      (lookupKey d "end_date" = none ∨ lookupKey d "end_date" = some (.str ss)) →
      lookupKey d "time" = some (.str tstr) →
      strContainsChar tstr ':' = true →
      pySplit tstr ':' = p0 :: p1 :: ps →
      pyInt p0 = some hv → pyInt p1 = some mv →
      0 ≤ hv → hv < 24 → 0 ≤ mv → mv < 60 →
      parse_date ss = some sd →
      processRecord d = some ⟨t, .timed ⟨sd, hv.toNat, mv.toNat⟩
        (DateTime.addHours ⟨sd, hv.toNat, mv.toNat⟩ DEFAULT_EVENT_DURATION_HOURS),
        lookupKey d "location", lookupKey d "description"⟩) ∧
    generate_ics_calendar [fridayBlitzRecord] =
      [⟨.str "Friday Blitz", .timed ⟨⟨2024, 2, 15⟩, 18, 30⟩ ⟨⟨2024, 2, 15⟩, 21, 30⟩,
        none, none⟩] := by
  constructor
  · intro d t ss tstr p0 p1 ps sd hv mv ht hs hend htime hcolon hsplit hph hpm hh0 hh hm0 hm hps
    refine processRecord_timed d t ss sd (.str tstr) ⟨sd, hv.toNat, mv.toNat⟩ ht hs hend ?_ ?_ hps
    · rw [htime]; rfl
    · exact resolveEventTime_parsed sd tstr p0 p1 ps hv mv hcolon hsplit hph hpm hh0 hh hm0 hm
  · rfl

theorem c5_timed_single_day_witness :
    processRecord fridayBlitzRecord =
      some ⟨.str "Friday Blitz", .timed ⟨⟨2024, 2, 15⟩, (18 : Int).toNat, (30 : Int).toNat⟩
        (DateTime.addHours ⟨⟨2024, 2, 15⟩, (18 : Int).toNat, (30 : Int).toNat⟩
          DEFAULT_EVENT_DURATION_HOURS),
        lookupKey fridayBlitzRecord "location", lookupKey fridayBlitzRecord "description"⟩ :=
  c5_timed_single_day.1 fridayBlitzRecord (.str "Friday Blitz") "2024-02-15" "18:30"
    "18" "30" [] ⟨2024, 2, 15⟩ 18 30 rfl rfl (Or.inl rfl) rfl rfl rfl rfl rfl
    (by decide) (by decide) (by decide) (by decide) rfl

/-- C6 counterexample: the record with the colon-containing malformed time
"25:00" is not emitted with a noon default; its processing raises inside
`replace(hour=25, ...)` and the record is skipped, so the generated calendar
is empty, contradicting the claim that every malformed time defaults to noon
with the event still emitted. -/
theorem c6_counterexample :
    processRecord badTimeRecord = none ∧ generate_ics_calendar [badTimeRecord] = [] :=
  ⟨rfl, rfl⟩

/-- C6 (amended): a single-day record whose time field is absent, or is a
string not containing a colon separator (including the empty string), is still
emitted, with the start time defaulted to noon (12:00); a time that does
contain a colon but whose fields are not a valid hour and minute (such as
"25:00") instead causes the record to be skipped. -/
theorem c6_noon_default :
    (∀ (d : JDict) (t : Json) (ss : String) (sd : Date),
      lookupKey d "title" = some t →
      lookupKey d "start_date" = some (.str ss) →
      (lookupKey d "end_date" = none ∨ lookupKey d "end_date" = some (.str ss)) →
      (lookupKey d "time" = none ∨
        ∃ tstr, lookupKey d "time" = some (.str tstr) ∧ strContainsChar tstr ':' = false) →
      parse_date ss = some sd →
      processRecord d = some ⟨t, .timed ⟨sd, 12, 0⟩
        (DateTime.addHours ⟨sd, 12, 0⟩ DEFAULT_EVENT_DURATION_HOURS),
        lookupKey d "location", lookupKey d "description"⟩) ∧
    processRecord badTimeRecord = none := by
  constructor
  · intro d t ss sd ht hs hend htime hps
    cases htime with
    | inl hnone =>
      refine processRecord_timed d t ss sd (.str "12:00") ⟨sd, 12, 0⟩ ht hs hend ?_ rfl hps
      rw [hnone]; rfl
    | inr hstr =>
      obtain ⟨tstr, htv, hcolon⟩ := hstr
      refine processRecord_timed d t ss sd (.str tstr) ⟨sd, 12, 0⟩ ht hs hend ?_ ?_ hps
      · rw [htv]; rfl
      · exact resolveEventTime_noon sd tstr hcolon
  · rfl

theorem c6_noon_default_witness :
    processRecord modernDateRecord =
      some ⟨.str "X", .timed ⟨⟨2024, 1, 1⟩, 12, 0⟩
        (DateTime.addHours ⟨⟨2024, 1, 1⟩, 12, 0⟩ DEFAULT_EVENT_DURATION_HOURS),
        lookupKey modernDateRecord "location", lookupKey modernDateRecord "description"⟩ :=
  c6_noon_default.1 modernDateRecord (.str "X") "2024-01-01" ⟨2024, 1, 1⟩
    rfl rfl (Or.inl rfl) (Or.inl rfl) rfl

/-- C8: an exception while processing one record only skips that record: the
surrounding records are processed unchanged and the calendar is still
produced; in particular the batch [valid record, record with start date
"invalid-date"] yields a calendar with exactly the one valid event. -/
theorem c8_skip_bad_record :
    (∀ (pre post : List JDict) (r : JDict), processRecord r = none →
      generate_ics_calendar (pre ++ r :: post) = generate_ics_calendar (pre ++ post)) ∧
    generate_ics_calendar [validRecord, invalidDateRecord] =
      [⟨.str "Valid Event", .timed ⟨⟨2024, 2, 15⟩, 10, 0⟩ ⟨⟨2024, 2, 15⟩, 13, 0⟩,
        none, none⟩] := by
  constructor
  · intro pre post r hr
    simp [generate_ics_calendar, hr]
  · rfl

theorem c8_skip_bad_record_witness :
    generate_ics_calendar ([validRecord] ++ invalidDateRecord :: []) =
      generate_ics_calendar ([validRecord] ++ []) :=
  c8_skip_bad_record.1 [validRecord] [] invalidDateRecord rfl

/-- C9: an element carrying a legacy "date" field and no "start_date" is
validated exactly as its normalization (the same dict with the value moved to
"start_date" and "date" removed); in particular the legacy record
(title "X", date "2024-01-01") normalizes to the modern record
(title "X", start_date "2024-01-01") and both produce the identical calendar
event. -/
theorem c9_legacy_date :
    (∀ (d : JDict) (v : Json),
      (lookupKey d "title").isSome = true →
      lookupKey d "date" = some v →
      lookupKey d "start_date" = none →
      validateEvent (.obj d) =
        validateEvent (.obj (delKey (setKey d "start_date" v) "date"))) ∧
    (validateEvent (.obj legacyDateRecord) = some modernDateRecord ∧
     validateEvent (.obj modernDateRecord) = some modernDateRecord ∧
     processRecord modernDateRecord =
       some ⟨.str "X", .timed ⟨⟨2024, 1, 1⟩, 12, 0⟩ ⟨⟨2024, 1, 1⟩, 15, 0⟩, none, none⟩) := by
  constructor
  · intro d v htitle hdate hstart
    have e1 : lookupKey (delKey (setKey d "start_date" v) "date") "title"
        = lookupKey d "title" := by
      rw [lookupKey_del_ne _ _ _ (by decide), lookupKey_set_ne _ _ _ _ (by decide)]
    have e2 : lookupKey (delKey (setKey d "start_date" v) "date") "start_date"
        = some v := by
      rw [lookupKey_del_ne _ _ _ (by decide), lookupKey_set_self]
    have e3 : lookupKey (delKey (setKey d "start_date" v) "date") "date" = none :=
      lookupKey_del_self _ _
    simp only [validateEvent, htitle, hdate, hstart, e1, e2, e3]
    simp
  · exact ⟨rfl, rfl, rfl⟩

theorem c9_legacy_date_witness :
    validateEvent (.obj legacyDateRecord) =
      validateEvent (.obj (delKey (setKey legacyDateRecord "start_date"
        (.str "2024-01-01")) "date")) :=
  c9_legacy_date.1 legacyDateRecord (.str "2024-01-01") rfl rfl rfl

/-- C10: the branch between the multi-day all-day form and the single-day
timed form is decided by comparing the raw end and start date strings, not
their parsed dates: distinct strings resolving to the same calendar day still
yield an all-day event whose exclusive end is the next day, while an equal
string yields a timed single-day event; in particular start "2024-03-20" with
end "2024-3-20" yields the all-day event 2024-03-20 with exclusive end
2024-03-21, and equal strings yield the noon timed event. -/
theorem c10_raw_string_branch :
    (∀ (d : JDict) (t : Json) (ss es : String) (sd : Date),
      lookupKey d "title" = some t →
      lookupKey d "start_date" = some (.str ss) →
      lookupKey d "end_date" = some (.str es) →
      es ≠ "" → es ≠ ss →
      parse_date ss = some sd → parse_date es = some sd →
      processRecord d = some ⟨t, .allDay sd (Date.succ sd),
        lookupKey d "location", lookupKey d "description"⟩) ∧
    (∀ (d : JDict) (t : Json) (ss : String) (sd : Date),
      lookupKey d "title" = some t →
      lookupKey d "start_date" = some (.str ss) →
      lookupKey d "end_date" = some (.str ss) →
      lookupKey d "time" = none →
      parse_date ss = some sd →
      processRecord d = some ⟨t, .timed ⟨sd, 12, 0⟩
        (DateTime.addHours ⟨sd, 12, 0⟩ DEFAULT_EVENT_DURATION_HOURS),
        lookupKey d "location", lookupKey d "description"⟩) ∧
    (processRecord sameDayRecord =
       some ⟨.str "T", .allDay ⟨2024, 3, 20⟩ ⟨2024, 3, 21⟩, none, none⟩ ∧
     processRecord equalStringsRecord =
       some ⟨.str "T", .timed ⟨⟨2024, 3, 20⟩, 12, 0⟩ ⟨⟨2024, 3, 20⟩, 15, 0⟩,
         none, none⟩) := by
  refine ⟨?_, ?_, rfl, rfl⟩
  · intro d t ss es sd ht hs he hne hdiff hps hpe
    exact processRecord_allday d t ss es sd sd ht hs he hne hdiff hps hpe
  · intro d t ss sd ht hs he htime hps
    refine processRecord_timed d t ss sd (.str "12:00") ⟨sd, 12, 0⟩ ht hs (Or.inr he) ?_ rfl hps
    rw [htime]; rfl

theorem c10_raw_string_branch_witness :
    processRecord sameDayRecord =
      some ⟨.str "T", .allDay ⟨2024, 3, 20⟩ (Date.succ ⟨2024, 3, 20⟩),
        lookupKey sameDayRecord "location", lookupKey sameDayRecord "description"⟩ :=
  c10_raw_string_branch.1 sameDayRecord (.str "T") "2024-03-20" "2024-3-20"
    ⟨2024, 3, 20⟩ rfl rfl rfl (by decide) (by decide) rfl rfl

/-! Validation-output lemmas for the structuring client. -/

/-- C7 counterexample: the completion response whose single element has an
empty title is accepted whole — the element with the empty title is included
among the valid event records, contradicting the claim that such an element is
not included. -/
theorem c7_counterexample :
    processAttempt (.content emptyTitleContent) =
      .ok [[("title", Json.str ""), ("start_date", Json.str "2024-01-01")]] := rfl

/-- C7 (amended): every array element accepted into the result of a
structuring attempt is an object containing a "title" key; the emptiness of
the title is not checked, so an element whose title is the empty string is
also included. -/
theorem c7_title_presence :
    ∀ (s : String) (evs : List JDict),
      processAttempt (.content s) = .ok evs →
      ∀ d, d ∈ evs → (lookupKey d "title").isSome = true := by
  intro s evs h d hmem
  have h0 : (match jsonLoads (cleanContent s) with
      | none => Except.error LLMFail.badJson
      | some (Json.arr elems) =>
        if (elems.filterMap validateEvent).isEmpty = true
        then Except.error LLMFail.noValidEvents
        else Except.ok (elems.filterMap validateEvent)
      | some _ => Except.error LLMFail.notArray) = Except.ok evs := h
  cases hp : jsonLoads (cleanContent s) with
  | none =>
    rw [hp] at h0
    exact absurd h0 (by simp)
  | some j =>
    rw [hp] at h0
    cases j with
    | arr elems =>
      have h2 : (if (elems.filterMap validateEvent).isEmpty = true
          then Except.error LLMFail.noValidEvents
          else Except.ok (elems.filterMap validateEvent)) = Except.ok evs := h0
      by_cases hemp : (elems.filterMap validateEvent).isEmpty = true
      · rw [if_pos hemp] at h2
        exact absurd h2 (by simp)
      · rw [if_neg hemp] at h2
        have hevs := Except.ok.inj h2
        rw [← hevs, List.mem_filterMap] at hmem
        obtain ⟨j0, _, hv⟩ := hmem
        exact validateEvent_title hv
    | null => exact absurd h0 (by simp)
    | bool b => exact absurd h0 (by simp)
    | num n => exact absurd h0 (by simp)
    | str t => exact absurd h0 (by simp)
    | obj fields => exact absurd h0 (by simp)

theorem c7_title_presence_witness :
    (lookupKey [("title", Json.str ""), ("start_date", Json.str "2024-01-01")] "title").isSome
      = true :=
  c7_title_presence emptyTitleContent
    [[("title", Json.str ""), ("start_date", Json.str "2024-01-01")]] rfl
    [("title", Json.str ""), ("start_date", Json.str "2024-01-01")] (by simp)

/-! Code-fence stripping lemmas for the fence-equivalence claim. -/

theorem fenceJson_data :
    "```json".data = '`' :: '`' :: '`' :: 'j' :: 's' :: 'o' :: 'n' :: [] := rfl

theorem fence_data : "```".data = '`' :: '`' :: '`' :: [] := rfl

theorem all_takeWhile (p : Char → Bool) (l : List Char) :
    (l.takeWhile p).all p = true := by
  induction l with
  | nil => rfl
  | cons c cs ih =>
    by_cases h : p c
    · simp [List.takeWhile_cons, h, ih]
    · simp [List.takeWhile_cons, h]

theorem dropWhile_cons_neg {p : Char → Bool} {c : Char} (cs : List Char)
    (h : p c = false) : (c :: cs).dropWhile p = c :: cs := by
  simp [List.dropWhile_cons, h]

theorem trimChars_decomp (cs : List Char) :
    ∃ a b, cs = a ++ trimChars cs ++ b ∧ a.all wsChar = true ∧ b.all wsChar = true := by
  refine ⟨cs.takeWhile wsChar, ((cs.dropWhile wsChar).reverse.takeWhile wsChar).reverse,
    ?_, all_takeWhile wsChar cs, ?_⟩
  · conv_lhs => rw [← List.takeWhile_append_dropWhile (p := wsChar) (l := cs)]
    rw [List.append_assoc]
    congr 1
    calc cs.dropWhile wsChar
        = (cs.dropWhile wsChar).reverse.reverse := by rw [List.reverse_reverse]
      _ = ((cs.dropWhile wsChar).reverse.takeWhile wsChar
            ++ (cs.dropWhile wsChar).reverse.dropWhile wsChar).reverse := by
            rw [List.takeWhile_append_dropWhile]
      _ = ((cs.dropWhile wsChar).reverse.dropWhile wsChar).reverse
            ++ ((cs.dropWhile wsChar).reverse.takeWhile wsChar).reverse := by
            rw [List.reverse_append]
      _ = trimChars cs ++ ((cs.dropWhile wsChar).reverse.takeWhile wsChar).reverse := rfl
  · rw [List.all_eq_true]
    intro x hx
    rw [List.mem_reverse] at hx
    exact List.mem_takeWhile_imp hx

theorem trimChars_eq_self_of_ends {cs : List Char}
    (h1 : ∃ c t, cs = c :: t ∧ wsChar c = false)
    (h2 : ∃ c t, cs.reverse = c :: t ∧ wsChar c = false) : trimChars cs = cs := by
  obtain ⟨c, t, hct, hc⟩ := h1
  obtain ⟨c2, t2, hct2, hc2⟩ := h2
  unfold trimChars
  rw [hct, dropWhile_cons_neg _ hc, ← hct, hct2, dropWhile_cons_neg _ hc2, ← hct2,
    List.reverse_reverse]

theorem isPrefixOf_append_self (l x : List Char) : List.isPrefixOf l (l ++ x) = true := by
  induction l with
  | nil => simp [List.isPrefixOf]
  | cons c cs ih => simp [List.isPrefixOf, ih]

theorem isPrefixOf_cons_false {c x : Char} {l xs : List Char} (h : (c == x) = false) :
    List.isPrefixOf (c :: l) (x :: xs) = false := by
  simp only [List.isPrefixOf, h, Bool.false_and]

theorem isSuffixOf_append_self (l x : List Char) : List.isSuffixOf l (x ++ l) = true := by
  unfold List.isSuffixOf
  rw [List.reverse_append]
  exact isPrefixOf_append_self l.reverse x.reverse

theorem ws_ne (x c : Char) (hx : wsChar x = true) (hc : wsChar c = false) :
    (c == x) = false := by
  rw [beq_eq_false_iff_ne]
  intro he
  subst he
  rw [hx] at hc
  exact Bool.noConfusion hc

theorem not_fence_head {x : Char} (xs : List Char) (hx : x = '[' ∨ wsChar x = true) :
    List.isPrefixOf ("```json".data) (x :: xs) = false ∧
    List.isPrefixOf ("```".data) (x :: xs) = false := by
  have hbx : ('`' == x) = false := by
    cases hx with
    | inl h => subst h; decide
    | inr h => exact ws_ne x '`' h (by decide)
  constructor
  · rw [fenceJson_data]; exact isPrefixOf_cons_false hbx
  · rw [fence_data]; exact isPrefixOf_cons_false hbx

theorem not_fence_suffix (mid : List Char) :
    List.isSuffixOf ("```".data) ('[' :: (mid ++ [']'])) = false := by
  have hrev : ('[' :: (mid ++ [']'])).reverse = ']' :: (mid.reverse ++ ['[']) := by simp
  unfold List.isSuffixOf
  rw [hrev, show ("```".data).reverse = '`' :: '`' :: '`' :: [] from rfl]
  exact isPrefixOf_cons_false (by decide)

theorem drop_seven (X : List Char) : ("```json".data ++ X).drop 7 = X := by
  rw [fenceJson_data]; rfl

theorem drop_three (X : List Char) : ("```".data ++ X).drop 3 = X := by
  rw [fence_data]; rfl

theorem take_fence_pre (X : List Char) :
    (X ++ "```".data).take ((X ++ "```".data).length - 3) = X := by
  have hlen : (X ++ "```".data).length - 3 = X.length := by
    rw [List.length_append, fence_data]
    simp
  rw [hlen, List.take_left]

theorem rev_head_backtick (A X : List Char) :
    ∃ t, (A ++ (X ++ "```".data)).reverse = '`' :: t := by
  refine ⟨'`' :: '`' :: (X.reverse ++ A.reverse), ?_⟩
  rw [← List.append_assoc, List.reverse_append, List.reverse_append]
  rfl

theorem cleanStep1_skip (cs : List Char)
    (h : List.isPrefixOf ("```json".data) cs = false) : cleanStep1 cs = cs := by
  unfold cleanStep1
  rw [if_neg (by simp [h])]

theorem cleanStep1_strip (X : List Char) :
    cleanStep1 ("```json".data ++ X) = X := by
  unfold cleanStep1
  rw [if_pos (isPrefixOf_append_self ("```json".data) X), drop_seven]

theorem cleanStep2_skip (cs : List Char)
    (h : List.isPrefixOf ("```".data) cs = false) : cleanStep2 cs = cs := by
  unfold cleanStep2
  rw [if_neg (by simp [h])]

theorem cleanStep2_strip (X : List Char) :
    cleanStep2 ("```".data ++ X) = X := by
  unfold cleanStep2
  rw [if_pos (isPrefixOf_append_self ("```".data) X), drop_three]

theorem cleanStep3_skip (cs : List Char)
    (h : List.isSuffixOf ("```".data) cs = false) : cleanStep3 cs = cs := by
  unfold cleanStep3
  rw [if_neg (by simp [h])]

theorem cleanStep3_strip (X : List Char) :
    cleanStep3 (X ++ "```".data) = X := by
  unfold cleanStep3
  rw [if_pos (isSuffixOf_append_self ("```".data) X), take_fence_pre]

theorem cleanChars_of_bracketed (cs mid : List Char)
    (hU : trimChars cs = '[' :: (mid ++ [']'])) :
    cleanChars cs = '[' :: (mid ++ [']']) := by
  have h1 := (not_fence_head (mid ++ [']']) (Or.inl rfl)).1
  have h2 := (not_fence_head (mid ++ [']']) (Or.inl rfl)).2
  have h4 : trimChars ('[' :: (mid ++ [']'])) = '[' :: (mid ++ [']']) := by
    apply trimChars_eq_self_of_ends
    · exact ⟨'[', mid ++ [']'], rfl, by decide⟩
    · refine ⟨']', mid.reverse ++ ['['], by simp, by decide⟩
  unfold cleanChars
  rw [hU, cleanStep1_skip _ h1, cleanStep2_skip _ h2,
    cleanStep3_skip _ (not_fence_suffix mid), h4]

theorem cleanChars_wrap (cs mid : List Char)
    (hU : trimChars cs = '[' :: (mid ++ [']'])) :
    cleanChars ("```json".data ++ (cs ++ "```".data)) = cleanChars cs ∧
    cleanChars ("```".data ++ (cs ++ "```".data)) = cleanChars cs := by
  obtain ⟨a, b, hdec, ha, hb⟩ := trimChars_decomp cs
  rw [hU] at hdec
  have hcsF : ∃ x xs, cs ++ "```".data = x :: xs ∧ (x = '[' ∨ wsChar x = true) := by
    rw [hdec]
    cases a with
    | nil =>
      exact ⟨'[', ((mid ++ [']']) ++ b) ++ "```".data, by simp, Or.inl rfl⟩
    | cons w t =>
      rw [List.all_cons, Bool.and_eq_true] at ha
      exact ⟨w, ((t ++ ('[' :: (mid ++ [']'])) ++ b) ++ "```".data), by simp, Or.inr ha.1⟩
  obtain ⟨x, xs, hx, hxok⟩ := hcsF
  have hclean := cleanChars_of_bracketed cs mid hU
  have t4 : List.isPrefixOf ("```".data) (cs ++ "```".data) = false := by
    rw [hx]; exact (not_fence_head xs hxok).2
  constructor
  · have trimWj : trimChars ("```json".data ++ (cs ++ "```".data)) =
        "```json".data ++ (cs ++ "```".data) := by
      apply trimChars_eq_self_of_ends
      · exact ⟨'`', _, rfl, by decide⟩
      · obtain ⟨t, ht⟩ := rev_head_backtick ("```json".data) cs
        exact ⟨'`', t, ht, by decide⟩
    have hwj : cleanChars ("```json".data ++ (cs ++ "```".data)) = trimChars cs := by
      unfold cleanChars
      rw [trimWj, cleanStep1_strip, cleanStep2_skip _ t4, cleanStep3_strip]
    rw [hwj, hU, hclean]
  · have trimWb : trimChars ("```".data ++ (cs ++ "```".data)) =
        "```".data ++ (cs ++ "```".data) := by
      apply trimChars_eq_self_of_ends
      · exact ⟨'`', _, rfl, by decide⟩
      · obtain ⟨t, ht⟩ := rev_head_backtick ("```".data) cs
        exact ⟨'`', t, ht, by decide⟩
    have hjx : ('j' == x) = false := by
      cases hxok with
      | inl h => subst h; decide
      | inr h => exact ws_ne x 'j' h (by decide)
    have t1 : List.isPrefixOf ("```json".data)
        ("```".data ++ (cs ++ "```".data)) = false := by
      rw [hx, fenceJson_data, fence_data]
      simp only [List.cons_append, List.nil_append, List.isPrefixOf, hjx,
        Bool.false_and, Bool.and_false]
    have hwb : cleanChars ("```".data ++ (cs ++ "```".data)) = trimChars cs := by
      unfold cleanChars
      rw [trimWb, cleanStep1_skip _ t1, cleanStep2_strip, cleanStep3_strip]
    rw [hwb, hU, hclean]

theorem processAttempt_content_congr {s1 s2 : String}
    (h : cleanChars s1.data = cleanChars s2.data) :
    processAttempt (.content s1) = processAttempt (.content s2) := by
  simp only [processAttempt, cleanContent, h]

/-- C4 counterexample: the content "json [...]" (a valid JSON array preceded
by the word "json") wrapped in a bare code fence parses to one event record,
while the identical content unwrapped fails to parse: the cleanup mistakes the
leading backticks plus the content's own "json" for a "```json" tag. This
contradicts the claim for every response text and the tagless fence form. -/
theorem c4_counterexample :
    processAttempt (.content ("```" ++ jsonPrefixedContent ++ "```")) ≠
      processAttempt (.content jsonPrefixedContent) := by
  intro h
  rw [show processAttempt (.content ("```" ++ jsonPrefixedContent ++ "```")) =
        .ok [[("title", Json.str "A"), ("start_date", Json.str "2024-01-01")]] from rfl,
      show processAttempt (.content jsonPrefixedContent) = .error .badJson from rfl] at h
  exact Except.noConfusion h

/-- C4 (amended): for every completion response text whose trimmed form begins
with "[" and ends with "]" — as the text of any JSON array response does —
structuring parses the response wrapped in surrounding code-fence markers
(leading triple backticks with or without a "json" tag, trailing triple
backticks) to the same result as the identical content unwrapped. -/
theorem c4_fence_equivalence :
    ∀ (c : String) (mid : List Char),
      trimChars c.data = '[' :: (mid ++ [']']) →
      processAttempt (.content ("```json" ++ c ++ "```")) = processAttempt (.content c) ∧
      processAttempt (.content ("```" ++ c ++ "```")) = processAttempt (.content c) := by
  intro c mid hU
  have hw := cleanChars_wrap c.data mid hU
  constructor
  · apply processAttempt_content_congr
    rw [show ("```json" ++ c ++ "```").data
          = "```json".data ++ (c.data ++ "```".data) from rfl]
    exact hw.1
  · apply processAttempt_content_congr
    rw [show ("```" ++ c ++ "```").data
          = "```".data ++ (c.data ++ "```".data) from rfl]
    exact hw.2

theorem c4_fence_equivalence_witness :
    processAttempt (.content ("```json" ++ "[]" ++ "```")) = processAttempt (.content "[]") ∧
    processAttempt (.content ("```" ++ "[]" ++ "```")) = processAttempt (.content "[]") :=
  c4_fence_equivalence "[]" [] rfl
